import Mathlib

/-!
Verification model of the Delaunay triangulation core of the triangles repository
(`src/delaunay/src/{lib.rs, util.rs, types.rs}`).

The Rust code computes exclusively with IEEE-754 binary64 (`f64`) values. We
embed `f64` shallowly as the type `F` below: a finite nonzero value is carried
as the exact rational it denotes, and signed zeros, signed infinities and NaN
are explicit constructors. Every arithmetic operation computes the exact
rational result and then rounds it to the nearest representable binary64 value
(round-to-nearest, ties-to-even, with subnormal and overflow handling), which
is exactly what the hardware does; operations on zeros, infinities and NaN
follow the IEEE-754 special-case rules used by Rust. `%` (fmod), `floor`,
`abs` and negation are exact on binary64 and are modelled exactly.

`Vec` indexing is modelled with `List.getD` / `List.set`; the Rust code panics
on an out-of-bounds index while the model returns a default / leaves the list
unchanged, but none of the executions examined here reach an out-of-bounds
index (they would panic in Rust). Unbounded `loop`/`while` constructs are
modelled with an explicit fuel parameter; all concrete executions below use
ample fuel, and fuel exhaustion never occurs in them.
-/

namespace Delaunay

/-- Model of an IEEE-754 binary64 value: NaN, signed infinity, signed zero, or
a finite nonzero value carried as the exact rational it denotes. -/
inductive F : Type where
  | nan : F
  | inf (neg : Bool) : F
  | zero (neg : Bool) : F
  | num (q : ℚ) : F
deriving DecidableEq, Repr

/-- Power of two with integer exponent, as an exact rational. -/
def pow2 (u : ℤ) : ℚ :=
  if 0 ≤ u then ((2 ^ u.toNat : ℕ) : ℚ) else (1 : ℚ) / ((2 ^ (-u).toNat : ℕ) : ℚ)

/-- Structural base-2 logarithm on naturals, tail-recursive with an
accumulator: `log2p fuel n acc` adds to `acc` the floor of the base-2
logarithm of `n` (for `n ≥ 1`, whenever `fuel ≥ n`); the fuel makes the
recursion structural. -/
def log2p : ℕ → ℕ → ℕ → ℕ
  | 0, _, acc => acc
  | fuel + 1, n, acc => if n ≤ 1 then acc else log2p fuel (n / 2) (acc + 1)

/-- Floor of the base-2 logarithm of a natural number (0 for 0). -/
def nlog2 (n : ℕ) : ℕ := log2p n n 0

/-- Greatest `e` with `2^e ≤ x`, assuming `0 < x` (binary exponent of `x`). -/
def qlog2 (x : ℚ) : ℤ :=
  let e0 : ℤ := (nlog2 x.num.natAbs : ℤ) - (nlog2 x.den : ℤ)
  if x < pow2 e0 then e0 - 1 else e0

/-- Round a rational to an integer, to nearest with ties to even. -/
def rndHalfEven (y : ℚ) : ℤ :=
  let f := ⌊y⌋
  if y - (f : ℚ) < 1 / 2 then f
  else if (1 : ℚ) / 2 < y - (f : ℚ) then f + 1
  else if f % 2 = 0 then f else f + 1

/-- Round an exact rational to the nearest binary64 value (round-to-nearest,
ties-to-even), producing a signed zero on total underflow and a signed
infinity on overflow. This is the rounding every f64 arithmetic operation
performs on its exact result. -/
def round64 (q : ℚ) : F :=
  if q = 0 then .zero false
  else
    let x := |q|
    let e := qlog2 x
    let u : ℤ := if e < -1022 then -1074 else e - 52
    let m := rndHalfEven (x / pow2 u)
    if m = 0 then .zero (q < 0)
    else if pow2 1024 ≤ (m : ℚ) * pow2 u then .inf (q < 0)
    else .num (if q < 0 then -((m : ℚ) * pow2 u) else (m : ℚ) * pow2 u)

/-- f64 negation (exact). -/
def negF : F → F
  | .nan => .nan
  | .inf s => .inf (!s)
  | .zero s => .zero (!s)
  | .num q => .num (-q)

/-- f64 absolute value (exact). -/
def absF : F → F
  | .nan => .nan
  | .inf _ => .inf false
  | .zero _ => .zero false
  | .num q => .num |q|

/-- f64 addition: exact rational sum, rounded; IEEE special cases for
zeros, infinities and NaN (an exact zero result of adding nonzeros is `+0`
in round-to-nearest). -/
def addF : F → F → F
  | .nan, _ => .nan
  | _, .nan => .nan
  | .inf s, .inf t => if s = t then .inf s else .nan
  | .inf s, _ => .inf s
  | _, .inf t => .inf t
  | .zero s, .zero t => .zero (s && t)
  | .zero _, b => b
  | a, .zero _ => a
  | .num p, .num q => if p + q = 0 then .zero false else round64 (p + q)

/-- f64 subtraction `a - b = a + (-b)`. -/
def subF (a b : F) : F := addF a (negF b)

/-- f64 multiplication: exact rational product, rounded; IEEE sign and
special-case rules. -/
def mulF : F → F → F
  | .nan, _ => .nan
  | _, .nan => .nan
  | .inf s, .inf t => .inf (s != t)
  | .inf _, .zero _ => .nan
  | .zero _, .inf _ => .nan
  | .inf s, .num q => .inf (s != decide (q < 0))
  | .num q, .inf t => .inf (t != decide (q < 0))
  | .zero s, .zero t => .zero (s != t)
  | .zero s, .num q => .zero (s != decide (q < 0))
  | .num q, .zero t => .zero (t != decide (q < 0))
  | .num p, .num q => round64 (p * q)

/-- f64 division: exact rational quotient, rounded; IEEE sign and
special-case rules (finite / 0 is a signed infinity). -/
def divF : F → F → F
  | .nan, _ => .nan
  | _, .nan => .nan
  | .inf _, .inf _ => .nan
  | .zero _, .zero _ => .nan
  | .inf s, .zero t => .inf (s != t)
  | .inf s, .num q => .inf (s != decide (q < 0))
  | .zero s, .inf t => .zero (s != t)
  | .zero s, .num q => .zero (s != decide (q < 0))
  | .num q, .inf t => .zero (t != decide (q < 0))
  | .num q, .zero t => .inf (t != decide (q < 0))
  | .num p, .num q => round64 (p / q)

/-- f64 `<`: false whenever either operand is NaN; `-0 < +0` is false. -/
def ltF : F → F → Bool
  | .nan, _ => false
  | _, .nan => false
  | .inf s, .inf t => s && !t
  | .inf s, _ => s
  | _, .inf t => !t
  | .zero _, .zero _ => false
  | .zero _, .num q => decide (0 < q)
  | .num q, .zero _ => decide (q < 0)
  | .num p, .num q => decide (p < q)

/-- f64 `==`: false whenever either operand is NaN; `-0 == +0` is true. -/
def eqF : F → F → Bool
  | .nan, _ => false
  | _, .nan => false
  | .inf s, .inf t => s == t
  | .zero _, .zero _ => true
  | .num p, .num q => p == q
  | _, _ => false

/-- f64 `<=` as `<` or `==` (false whenever either operand is NaN). -/
def leF (a b : F) : Bool := ltF a b || eqF a b

/-- Rust `f64::min`: returns the other operand when one is NaN. -/
def minF (a b : F) : F :=
  match a, b with
  | .nan, b => b
  | a, .nan => a
  | a, b => if ltF b a then b else a

/-- Rust `f64::max`: returns the other operand when one is NaN. -/
def maxF (a b : F) : F :=
  match a, b with
  | .nan, b => b
  | a, .nan => a
  | a, b => if ltF a b then b else a

/-- Rust `f64::is_subnormal`: finite, nonzero, and of magnitude below the
smallest positive normal value `2^-1022`. -/
def isSubnormalF : F → Bool
  | .num q => decide (|q| < pow2 (-1022)) && decide (q ≠ 0)
  | _ => false

/-- f64 `floor` (exact on binary64). -/
def floorF : F → F
  | .nan => .nan
  | .inf s => .inf s
  | .zero s => .zero s
  | .num q => if ⌊q⌋ = 0 then .zero (q < 0) else .num (⌊q⌋ : ℚ)

/-- Truncation of a rational toward zero. -/
def qtrunc (x : ℚ) : ℤ := if 0 ≤ x then ⌊x⌋ else ⌈x⌉

/-- Rust `%` on f64 (fmod): exact remainder with the sign of the dividend;
NaN for a NaN/infinite dividend or a zero divisor. -/
def fmodF : F → F → F
  | .nan, _ => .nan
  | _, .nan => .nan
  | .inf _, _ => .nan
  | _, .zero _ => .nan
  | .zero s, _ => .zero s
  | .num p, .inf _ => .num p
  | .num p, .num q =>
    let r := p - q * (qtrunc (p / q) : ℚ)
    if r = 0 then .zero (p < 0) else .num r

/-- Rust `as usize` cast of an f64: truncate toward zero and saturate to
`[0, 2^64 - 1]`; NaN casts to 0. -/
def castUsize : F → ℕ
  | .nan => 0
  | .inf s => if s then 0 else 2 ^ 64 - 1
  | .zero _ => 0
  | .num q => if q ≤ 0 then 0 else min ⌊q⌋.toNat (2 ^ 64 - 1)

/-- Strict comparison in the `f64::total_cmp` total order, specialised to the
patterns arising here (all NaNs are identified and placed above the ordinary
values; the sort keys below are either all NaN or NaN-free, so the placement
of NaN never influences a modelled sort result). -/
def totLtF : F → F → Bool
  | .nan, _ => false
  | _, .nan => true
  | .inf s, .inf t => s && !t
  | .inf s, _ => s
  | _, .inf t => !t
  | .zero s, .zero t => s && !t
  | .zero _, .num q => decide (0 < q)
  | .num q, .zero _ => decide (q < 0)
  | .num p, .num q => decide (p < q)

/-- Model of the types.rs `Vertex`: a 2-D point with f64 coordinates. -/
structure V : Type where
  x : F
  y : F
deriving DecidableEq, Repr

/-- Constant `Vertex::ZERO`. -/
def V.ZERO : V := ⟨.zero false, .zero false⟩

/-- Constant `Vertex::NAN`. -/
def V.NAN : V := ⟨.nan, .nan⟩

/-- Constant `Vertex::splat(f64::INFINITY)`. -/
def V.INF_INF : V := ⟨.inf false, .inf false⟩

/-- Constant `Vertex::splat(f64::NEG_INFINITY)`. -/
def V.NEGINF : V := ⟨.inf true, .inf true⟩

/-- Componentwise `Vertex` subtraction (types.rs `impl Sub`). -/
def vsub (a b : V) : V := ⟨subF a.x b.x, subF a.y b.y⟩

/-- Componentwise `Vertex` addition (types.rs `impl Add`). -/
def vadd (a b : V) : V := ⟨addF a.x b.x, addF a.y b.y⟩

/-- Componentwise `Vertex` division by an f64 scalar (types.rs `impl Div<f64>`). -/
def vdiv (a : V) (s : F) : V := ⟨divF a.x s, divF a.y s⟩

/-- types.rs `Vertex::distance_squared`. -/
def distance_squared (a b : V) : F :=
  let dx := subF a.x b.x
  let dy := subF a.y b.y
  addF (mulF dx dx) (mulF dy dy)

/-- types.rs `Vertex::length_squared`. -/
def length_squared (v : V) : F := addF (mulF v.x v.x) (mulF v.y v.y)

/-- types.rs `Vertex::min` (componentwise `f64::min`). -/
def vmin (a b : V) : V := ⟨minF a.x b.x, minF a.y b.y⟩

/-- types.rs `Vertex::max` (componentwise `f64::max`). -/
def vmax (a b : V) : V := ⟨maxF a.x b.x, maxF a.y b.y⟩

/-- util.rs `orient2d_fast`:
`(a.y - c.y) * (b.x - c.x) - (a.x - c.x) * (b.y - c.y)`. -/
def orient2d_fast (a b c : V) : F :=
  subF (mulF (subF a.y c.y) (subF b.x c.x)) (mulF (subF a.x c.x) (subF b.y c.y))

/-- Literal `0.5 : f64`. -/
def halfF : F := .num (1 / 2)

/-- util.rs `circumradius` (returns the squared circumradius). -/
def circumradius (a b c : V) : F :=
  let d := vsub b a
  let e := vsub c a
  let bl := length_squared d
  let cl := length_squared e
  let dia := divF halfF (subF (mulF d.x e.y) (mulF d.y e.x))
  let x := mulF (subF (mulF e.y bl) (mulF d.y cl)) dia
  let y := mulF (subF (mulF d.x cl) (mulF e.x bl)) dia
  addF (mulF x x) (mulF y y)

/-- util.rs `circumcenter`. -/
def circumcenter (a b c : V) : V :=
  let d := vsub b a
  let e := vsub c a
  let bl := length_squared d
  let cl := length_squared e
  let dia := divF halfF (subF (mulF d.x e.y) (mulF d.y e.x))
  let x := addF a.x (mulF (subF (mulF e.y bl) (mulF d.y cl)) dia)
  let y := addF a.y (mulF (subF (mulF d.x cl) (mulF e.x bl)) dia)
  ⟨x, y⟩

/-- util.rs `in_circle`: the 3×3 lifted determinant test, true iff the
computed value is `< 0.0`. -/
def in_circle (a b c p : V) : Bool :=
  let d := vsub a p
  let e := vsub b p
  let f := vsub c p
  let ap := length_squared d
  let bp := length_squared e
  let cp := length_squared f
  ltF
    (addF
      (subF (mulF d.x (subF (mulF e.y cp) (mulF bp f.y)))
            (mulF d.y (subF (mulF e.x cp) (mulF bp f.x))))
      (mulF ap (subF (mulF e.x f.y) (mulF e.y f.x))))
    (.zero false)

/-- util.rs `pseudo_angle`. -/
def pseudo_angle (dx dy : F) : F :=
  let p := divF dx (addF (absF dx) (absF dy))
  if ltF (.zero false) dy then divF (subF (.num 3) p) (.num 4)
  else divF (addF (.num 1) p) (.num 4)

/-- util.rs `hash_key`:
`((pseudo_angle(p - c) * hash_size).floor() % hash_size) as usize`. -/
def hash_key (p c : V) (hash_size : F) : ℕ :=
  castUsize (fmodF (floorF (mulF (pseudo_angle (subF p.x c.x) (subF p.y c.y)) hash_size)) hash_size)

/-- The `hash_size` value `(n as f64).sqrt().ceil()` of lib.rs, as a natural
number. For every `n < 2^52` the correctly rounded f64 square root of `n`
has the same ceiling as the exact square root (rounding by at most half an
ulp cannot cross an integer there), so the ceiling is `⌈√n⌉` exactly. -/
def hash_size_nat (n : ℕ) : ℕ :=
  if Nat.sqrt n * Nat.sqrt n = n then Nat.sqrt n else Nat.sqrt n + 1

/-- f64 literal `f64::EPSILON * 2.0` from the near-duplicate test (exact). -/
def twoEps : F := .num (pow2 (-51))

/-- The conditional swap ending util.rs `seed_triangle` (lines 63-67):
if `orient2d_fast(p0, p1, p2) < 0.0`, swap `p1 ↔ p2` and `i1 ↔ i2`. -/
def seedSwap (p0 p1 p2 : V) (i0 i1 i2 : ℕ) : (V × V × V) × (ℕ × ℕ × ℕ) :=
  if ltF (orient2d_fast p0 p1 p2) (.zero false) then ((p0, p2, p1), (i0, i2, i1))
  else ((p0, p1, p2), (i0, i1, i2))

/-- util.rs `seed_triangle`: bounding-box centre, then the three greedy folds
selecting `i0`, `i1`, `i2` (each fold starts from `(0, Vertex::NAN, ∞)` and
takes a candidate only on a strict decrease), the subnormal test on the
minimal squared circumradius, and the CCW swap. -/
def seed_triangle (points : List V) :
    Except Unit ((V × V × V) × (ℕ × ℕ × ℕ)) :=
  let bb := points.foldl (fun acc v => (vmin acc.1 v, vmax acc.2 v)) (V.INF_INF, V.NEGINF)
  let c := vdiv (vadd bb.1 bb.2) (.num 2)
  let s0 := points.enum.foldl
    (fun acc iv =>
      let d := distance_squared iv.2 c
      if ltF d acc.2.2 then (iv.1, iv.2, d) else acc)
    (0, V.NAN, F.inf false)
  let i0 := s0.1
  let p0 := s0.2.1
  let s1 := (points.enum.filter (fun iv => iv.1 ≠ i0)).foldl
    (fun acc iv =>
      let d := distance_squared iv.2 p0
      if ltF d acc.2.2 then (iv.1, iv.2, d) else acc)
    (0, V.NAN, F.inf false)
  let i1 := s1.1
  let p1 := s1.2.1
  let s2 := (points.enum.filter (fun iv => iv.1 ≠ i0 && iv.1 ≠ i1)).foldl
    (fun acc iv =>
      let r := circumradius p0 p1 iv.2
      if ltF r acc.2.2 then (iv.1, iv.2, r) else acc)
    (0, V.NAN, F.inf false)
  let i2 := s2.1
  let p2 := s2.2.1
  let r_min := s2.2.2
  if isSubnormalF r_min then .error ()
  else .ok (seedSwap p0 p1 p2 i0 i1 i2)

/-- lib.rs `struct Triangulation`: the three output arrays plus the owned
point array. -/
structure Triangulation : Type where
  points : List V
  triangles : List ℕ
  halfEdges : List (Option ℕ)
  hull : List ℕ
deriving DecidableEq, Repr

/-- lib.rs `struct HullContext`. The 256-slot `edge_stack` is a fixed-length
list; `hashSize` is the integer value of the f64 `hash_size`. -/
structure HullContext : Type where
  prev : List ℕ
  next : List ℕ
  tri : List ℕ
  hash : List (Option ℕ)
  edgeStack : List ℕ
  hashSize : ℕ
  start : ℕ
  size : ℕ
deriving DecidableEq, Repr

/-- List read with default, modelling `Vec` indexing (Rust panics when out of
bounds; no modelled execution reads out of bounds). -/
def getN (l : List ℕ) (i : ℕ) : ℕ := l.getD i 0

/-- Read of a `Vec<Option<EdgeIndex>>`. -/
def getO (l : List (Option ℕ)) (i : ℕ) : Option ℕ := l.getD i none

/-- Point array read. -/
def getP (t : Triangulation) (i : ℕ) : V := t.points.getD i V.ZERO

/-- lib.rs `Triangulation::new`. The Rust code computes `(2 * n - 5).max(0)`
in `usize`: for `n < 3` the subtraction `2 * n - 5` underflows (a panic in a
debug build; in a release build it wraps around and the subsequent
`vec![_; max_triangles * 3]` demands an absurd allocation and aborts), which
the model represents as `none`. -/
def Triangulation.new (points : List V) : Option Triangulation :=
  let n := points.length
  if 5 ≤ 2 * n then
    let maxTriangles := Nat.max (2 * n - 5) 0
    some { points := points,
           triangles := List.replicate (maxTriangles * 3) 0,
           halfEdges := List.replicate (maxTriangles * 3) none,
           hull := List.replicate n 0 }
  else none

/-- lib.rs `HullContext::new`. -/
def HullContext.new (n : ℕ) : HullContext :=
  { prev := List.replicate n 0
    next := List.replicate n 0
    tri := List.replicate n 0
    hash := List.replicate (hash_size_nat n) none
    edgeStack := List.replicate 256 0
    hashSize := hash_size_nat n
    start := 0
    size := 0 }

/-- lib.rs `HullContext::seed`. -/
def HullContext.seed (h : HullContext) (p0 p1 p2 : V) (i0 i1 i2 : ℕ)
    (center : V) : HullContext :=
  let h := { h with next := ((h.next.set i0 i1).set i1 i2).set i2 i0 }
  let h := { h with prev := ((h.prev.set i0 i2).set i1 i0).set i2 i1 }
  let h := { h with tri := ((h.tri.set i0 0).set i1 1).set i2 2 }
  let h := { h with hash := List.replicate h.hash.length none }
  let h := { h with hash := h.hash.set (hash_key p0 center (.num h.hashSize)) (some i0) }
  let h := { h with hash := h.hash.set (hash_key p1 center (.num h.hashSize)) (some i1) }
  let h := { h with hash := h.hash.set (hash_key p2 center (.num h.hashSize)) (some i2) }
  { h with start := i0, size := 3 }

/-- lib.rs `Triangulation::link`. -/
def link (t : Triangulation) (a : ℕ) (b : Option ℕ) : Triangulation :=
  let t := { t with halfEdges := t.halfEdges.set a b }
  match b with
  | some b0 => { t with halfEdges := t.halfEdges.set b0 (some a) }
  | none => t

/-- lib.rs `Triangulation::add_triangle`: writes the three vertices at
`triangles[len..len+3]`, links the three half-edges, and returns the new
state, the new length and the base edge index of the triangle. -/
def add_triangle (t : Triangulation) (len : ℕ) (v : ℕ × ℕ × ℕ)
    (h : Option ℕ × Option ℕ × Option ℕ) : Triangulation × ℕ × ℕ :=
  let t := { t with triangles := ((t.triangles.set len v.1).set (len + 1) v.2.1).set (len + 2) v.2.2 }
  let t := link t len h.1
  let t := link t (len + 1) h.2.1
  let t := link t (len + 2) h.2.2
  (t, len + 3, len)

/-- The hull-repair walk inside lib.rs `legalize` (lines 319-331): when the
half-edge opposite `bl` was on the hull, walk the hull backwards from
`start` until the vertex whose `tri` entry is `bl` is found and rewrite it
to `a`. -/
def fixWalk : ℕ → HullContext → ℕ → ℕ → ℕ → HullContext
  | 0, h, _, _, _ => h
  | fuel + 1, h, bl, a, e =>
    if getN h.tri e = bl then { h with tri := h.tri.set e a }
    else
      let e := getN h.prev e
      if e = h.start then h else fixWalk fuel h bl a e

/-- The main loop of lib.rs `legalize` (lines 266-352), with the explicit
256-slot stack (`i` is the live stack height; a push is dropped when
`i = 256`) and an explicit fuel for the unbounded `loop`. -/
def legalizeLoop : ℕ → Triangulation → HullContext → ℕ → ℕ → ℕ →
    Triangulation × HullContext × ℕ
  | 0, t, h, _, _, ar => (t, h, ar)
  | fuel + 1, t, h, a, i, _ =>
    let b := getO t.halfEdges a
    let a0 := a - a % 3
    let ar := a0 + (a + 2) % 3
    match b with
    | none =>
      if i = 0 then (t, h, ar)
      else legalizeLoop fuel t h (getN h.edgeStack (i - 1)) (i - 1) ar
    | some b =>
      let b0 := b - b % 3
      let al := a0 + (a + 1) % 3
      let bl := b0 + (b + 2) % 3
      let p0 := getN t.triangles ar
      let pr := getN t.triangles a
      let pl := getN t.triangles al
      let p1 := getN t.triangles bl
      if in_circle (getP t p0) (getP t pr) (getP t pl) (getP t p1) then
        let t := { t with triangles := (t.triangles.set a p1).set b p0 }
        let hbl := getO t.halfEdges bl
        let h := if hbl = none then fixWalk (fuel + 1) h bl a h.start else h
        let t := link t a hbl
        let t := link t b (getO t.halfEdges ar)
        let t := link t ar (some bl)
        let br := b0 + (b + 1) % 3
        let hi :=
          if i < h.edgeStack.length then ({ h with edgeStack := h.edgeStack.set i br }, i + 1)
          else (h, i)
        legalizeLoop fuel t hi.1 a hi.2 ar
      else
        if i = 0 then (t, h, ar)
        else legalizeLoop fuel t h (getN h.edgeStack (i - 1)) (i - 1) ar

/-- lib.rs `Triangulation::legalize`: run the loop with an empty stack and
return the final `ar`. -/
def legalize (fuel : ℕ) (t : Triangulation) (h : HullContext) (a : ℕ) :
    Triangulation × HullContext × ℕ :=
  legalizeLoop fuel t h a 0 0

/-- Stable insertion of an index into a list already sorted by the key. -/
def insertSorted (key : ℕ → F) (x : ℕ) : List ℕ → List ℕ
  | [] => [x]
  | h :: tl => if totLtF (key x) (key h) then x :: h :: tl else h :: insertSorted key x tl

/-- Model of `ids.sort_unstable_by(|a, b| key(a).total_cmp(&key(b)))` as a stable
insertion sort. For the slice lengths arising in the modelled executions
(at most 20) the Rust `sort_unstable` is itself an insertion sort, hence stable, so
the model agrees with it on ties. -/
def sortByKey (key : ℕ → F) (l : List ℕ) : List ℕ :=
  l.foldl (fun acc x => insertSorted key x acc) []

/-- The hash-bucket scan of lib.rs lines 145-151: probe buckets
`key, key+1, …` and stop at the first entry that is a live hull vertex; the
scan state after the loop is the last probed entry when no probe broke. -/
def bucketScan (h : HullContext) (key : ℕ) : Option ℕ :=
  ((List.range h.hashSize).foldl
    (fun acc j =>
      if acc.2 then acc
      else
        let start := getO h.hash ((key + j) % h.hashSize)
        (start, match start with
                | some s => decide (s ≠ getN h.next s)
                | none => false))
    (some 0, false)).1

/-- The visible-edge walk of lib.rs lines 153-163: starting from
`e = sstart`, advance while `orient2d_fast(p, P[e], P[next[e]]) ≥ 0`;
`none` models the labelled continue when the walk returns to `sstart`
(point treated as a near-duplicate). -/
def visibleWalk (t : Triangulation) (h : HullContext) (p : V) (sstart : ℕ) :
    ℕ → ℕ → Option ℕ
  | 0, _ => none
  | fuel + 1, e =>
    let q := getN h.next e
    if leF (.zero false) (orient2d_fast p (getP t e) (getP t q)) then
      let e := q
      if e = sstart then none else visibleWalk t h p sstart fuel e
    else some e

/-- The forward hull walk of lib.rs lines 178-191. -/
def forwardWalk (fuel : ℕ) (i : ℕ) (p : V) :
    ℕ → Triangulation → HullContext → ℕ → ℕ → Triangulation × HullContext × ℕ × ℕ
  | 0, t, h, len, n => (t, h, len, n)
  | fw + 1, t, h, len, n =>
    let q := getN h.next n
    if ltF (orient2d_fast p (getP t n) (getP t q)) (.zero false) then
      let r := add_triangle t len (n, i, q) (some (getN h.tri i), none, some (getN h.tri n))
      let t := r.1
      let len := r.2.1
      let tt := r.2.2
      let lr := legalize fuel t h (tt + 2)
      let t := lr.1
      let h := lr.2.1
      let h := { h with tri := h.tri.set i lr.2.2 }
      let h := { h with next := h.next.set n n, size := h.size - 1 }
      forwardWalk fuel i p fw t h len q
    else (t, h, len, n)

/-- The backward hull walk of lib.rs lines 194-209 (entered only when
`e = sstart`): `q` starts as `hull.prev[e]` and is reassigned from
`hull.next[e]` at the end of each iteration (lib.rs line 207). -/
def backwardWalk (fuel : ℕ) (i : ℕ) (p : V) :
    ℕ → Triangulation → HullContext → ℕ → ℕ → ℕ → Triangulation × HullContext × ℕ × ℕ
  | 0, t, h, len, e, _ => (t, h, len, e)
  | bw + 1, t, h, len, e, q =>
    if ltF (orient2d_fast p (getP t q) (getP t e)) (.zero false) then
      let r := add_triangle t len (q, i, e) (none, some (getN h.tri e), some (getN h.tri q))
      let t := r.1
      let len := r.2.1
      let tt := r.2.2
      let lr := legalize fuel t h (tt + 2)
      let t := lr.1
      let h := lr.2.1
      let h := { h with tri := h.tri.set q tt }
      let h := { h with next := h.next.set e e, size := h.size - 1 }
      let e := q
      let q := getN h.next e
      backwardWalk fuel i p bw t h len e q
    else (t, h, len, e)

/-- The body of the labelled outer loop of lib.rs lines 129-221 for one id
`i`: near-duplicate and seed-index skips, point location, first triangle,
legalization, forward and backward hull walks, and the hull/hash updates.
The state is `(triangulation, hull context, triangles_len, p_prev)`. -/
def insertPoint (fuel : ℕ) (i0 i1 i2 : ℕ) (center : V)
    (st : Triangulation × HullContext × ℕ × Option V) (i : ℕ) :
    Triangulation × HullContext × ℕ × Option V :=
  let t := st.1
  let h := st.2.1
  let len := st.2.2.1
  let pPrev := st.2.2.2
  let p := getP t i
  if (match pPrev with
      | some pp => leF (distance_squared p pp) twoEps
      | none => false) then st
  else
    let pPrev := some p
    if i = i0 || i = i1 || i = i2 then (t, h, len, pPrev)
    else
      let key := hash_key p center (.num h.hashSize)
      let start := bucketScan h key
      let sstart := getN h.prev (start.getD 0)
      match visibleWalk t h p sstart (fuel + 1) sstart with
      | none => (t, h, len, pPrev)
      | some e =>
        let r := add_triangle t len (e, i, getN h.next e) (none, none, some (getN h.tri e))
        let t := r.1
        let len := r.2.1
        let tt := r.2.2
        let lr := legalize fuel t h (tt + 2)
        let t := lr.1
        let h := lr.2.1
        let h := { h with tri := h.tri.set i lr.2.2 }
        let h := { h with tri := h.tri.set e tt }
        let h := { h with size := h.size + 1 }
        let n := getN h.next e
        let fr := forwardWalk fuel i p fuel t h len n
        let t := fr.1
        let h := fr.2.1
        let len := fr.2.2.1
        let n := fr.2.2.2
        let br :=
          if e = sstart then backwardWalk fuel i p fuel t h len e (getN h.prev e)
          else (t, h, len, e)
        let t := br.1
        let h := br.2.1
        let len := br.2.2.1
        let e := br.2.2.2
        let h := { h with start := e }
        let h := { h with prev := h.prev.set i e }
        let h := { h with next := h.next.set e i }
        let h := { h with prev := h.prev.set n i }
        let h := { h with next := h.next.set i n }
        let h := { h with hash := h.hash.set (hash_key p center (.num h.hashSize)) (some i) }
        let h := { h with hash := h.hash.set (hash_key (getP t e) center (.num h.hashSize)) (some e) }
        (t, h, len, pPrev)

/-- lib.rs `Triangulation::update_with` (lines 83-232): seed selection with
the colinear fallback, the distance sort, the seed triangle, the per-point
insertion loop, and the final hull write-out and truncation. -/
def update_with (fuel : ℕ) (t : Triangulation) (h : HullContext) :
    Triangulation × HullContext :=
  let ids := List.range t.points.length
  match seed_triangle t.points with
  | .error _ =>
    let pt0 := getP t 0
    let dists := t.points.map (fun p => addF (subF p.x pt0.x) (subF p.y pt0.y))
    let ids := sortByKey (fun i => dists.getD i (.zero false)) ids
    let t := (ids.foldl
      (fun acc id =>
        let d := dists.getD id (.zero false)
        if ltF acc.2 d then ({ acc.1 with hull := acc.1.hull ++ [id] }, d) else acc)
      (t, F.inf true)).1
    (t, h)
  | .ok ((p0, p1, p2), (i0, i1, i2)) =>
    let center := circumcenter p0 p1 p2
    let dists := t.points.map (fun p => distance_squared p center)
    let ids := sortByKey (fun i => dists.getD i (.zero false)) ids
    let h := h.seed p0 p1 p2 i0 i1 i2 center
    let r := add_triangle t 0 (i0, i1, i2) (none, none, none)
    let t := r.1
    let len := r.2.1
    let st := ids.foldl (insertPoint fuel i0 i1 i2 center) (t, h, len, none)
    let t := st.1
    let h := st.2.1
    let len := st.2.2.1
    let fin := (List.range h.size).foldl
      (fun acc k => ({ acc.1 with hull := acc.1.hull.set k acc.2 }, getN h.next acc.2))
      (t, h.start)
    let t := fin.1
    let t := { t with triangles := t.triangles.take len,
                      halfEdges := t.halfEdges.take len,
                      hull := t.hull.take h.size }
    (t, h)

/-- lib.rs `triangulate`: `Triangulation::new` (which underflows for
`n < 3`, modelled as `none`) followed by `update_with` on a fresh hull
context. -/
def triangulate (fuel : ℕ) (points : List V) : Option Triangulation :=
  match Triangulation.new points with
  | none => none
  | some t => some (update_with fuel t (HullContext.new points.length)).1

/-- lib.rs `Triangulation::next_half_edge`. -/
def next_half_edge (e : ℕ) : ℕ := if e % 3 = 2 then e - 2 else e + 1

/-- The filter condition of lib.rs `Triangulation::edges` (line 47): a
half-edge is emitted iff its twin is `none` or smaller than it. -/
def edgeEmitted (halfEdges : List (Option ℕ)) (e : ℕ) : Bool :=
  match halfEdges.getD e none with
  | some o => decide (o < e)
  | none => true

/-- The indices at which lib.rs `Triangulation::edges` yields an edge. -/
def edgesEmitIdx (halfEdges : List (Option ℕ)) : List ℕ :=
  (List.range halfEdges.length).filter (fun e => edgeEmitted halfEdges e)

/-- lib.rs `Triangulation::edges`: the emitted lazy sequence of point pairs
`(P[triangles[e]], P[triangles[next_half_edge(e)]])`. -/
def edges (t : Triangulation) : List (V × V) :=
  (edgesEmitIdx t.halfEdges).map
    (fun e => (getP t (getN t.triangles e), getP t (getN t.triangles (next_half_edge e))))

/-- Exact-arithmetic value of a modelled f64 (NaN and infinities collapse to
0; only applied to finite values). -/
def F.toRat : F → ℚ
  | .nan => 0
  | .inf _ => 0
  | .zero _ => 0
  | .num q => q

/-- Finiteness of a modelled f64. -/
def F.isFinite : F → Bool
  | .nan => false
  | .inf _ => false
  | _ => true

/-- Exact-arithmetic orientation determinant
`(a.y - c.y)(b.x - c.x) - (a.x - c.x)(b.y - c.y)` over the rational values
of the coordinates; this is the exact orient2d of the CCW
claim (positive means counter-clockwise there). -/
def orient2d_exact (a b c : V) : ℚ :=
  (F.toRat a.y - F.toRat c.y) * (F.toRat b.x - F.toRat c.x) -
    (F.toRat a.x - F.toRat c.x) * (F.toRat b.y - F.toRat c.y)

/-- Boolean twin-symmetry check on a half-edge array: every edge with a twin
has a distinct twin whose twin entry points back. The final outputs of the
algorithm are expected to satisfy it (spec invariant). -/
def twinSymB (h : List (Option ℕ)) : Bool :=
  (List.range h.length).all fun e =>
    match h.getD e none with
    | none => true
    | some f => decide (f ≠ e) && decide (h.getD f none = some e)

/-- Exact rational denoted by the f64 literal `0.3`. -/
def q03 : ℚ := 5404319552844595 / 2 ^ 54

/-- Exact rational denoted by the f64 literal `0.4`. -/
def q04 : ℚ := 3602879701896397 / 2 ^ 53

/-- Exact rational denoted by the f64 literal `0.7`. -/
def q07 : ℚ := 3152519739159347 / 2 ^ 52

/-- The 7-point input of the specification scenario and of the in-repo test:
`[(0,0), (1,0), (0,1), (1,1), (0.3,0.4), (0.5,0.7), (0.7,0.4)]`, with each
decimal literal replaced by the exact binary64 value it denotes. -/
def pts7 : List V :=
  [⟨.zero false, .zero false⟩, ⟨.num 1, .zero false⟩, ⟨.zero false, .num 1⟩,
   ⟨.num 1, .num 1⟩, ⟨.num q03, .num q04⟩, ⟨.num (1/2), .num q07⟩, ⟨.num q07, .num q04⟩]

/-- The collinear example input `[(0,0), (1,0), (2,0)]`. -/
def pts3 : List V :=
  [⟨.zero false, .zero false⟩, ⟨.num 1, .zero false⟩, ⟨.num 2, .zero false⟩]

/-- A non-degenerate 3-point input (finite coordinates, not exactly
collinear: the exact orientation determinant of the triple is `-2^-104`)
on which the fast orientation predicate evaluates to `+0`, so seed
selection performs no swap and the output triangle is exactly clockwise. -/
def cex5 : List V :=
  [⟨.num (1 + pow2 (-52)), .num 1⟩,
   ⟨.num (1 + pow2 (-51)), .num (1 + pow2 (-52))⟩,
   ⟨.zero false, .zero false⟩]

/-- A non-degenerate 4-point input (finite coordinates, not all collinear:
the exact orientation determinant of its first three points is nonzero) on
which every candidate squared circumradius in the third seed fold evaluates
to `+∞` (the intermediate products overflow), so that fold keeps its
default `i2 = 0`, which here coincides with `i1`: the seed triangle is
emitted with a repeated vertex. The fourth point is an exact duplicate of
the third, skipped by the near-duplicate test during insertion, and the
run completes without any out-of-bounds access. -/
def dup4 : List V :=
  [⟨.zero false, .zero false⟩,
   ⟨.num (pow2 500), .num (pow2 500)⟩,
   ⟨.num (pow2 501), .num (pow2 501 + pow2 449)⟩,
   ⟨.num (pow2 501), .num (pow2 501 + pow2 449)⟩]

/-- Empty triangulation record, used only as the default of `Option.getD`. -/
def emptyTriangulation : Triangulation := ⟨[], [], [], []⟩

/-- The triangulation the code actually computes on the 7-point input. -/
def T7 : Triangulation := (triangulate 1000 pts7).getD emptyTriangulation

end Delaunay

namespace Delaunay

/-- C9: `next_half_edge` never leaves its triangle and is a 3-cycle: for
every edge index `e`, `next_half_edge e` has the same triangle base
`e - e % 3`, and applying `next_half_edge` three times returns `e`. -/
theorem next_half_edge_cycle (e : ℕ) :
    next_half_edge e - next_half_edge e % 3 = e - e % 3 ∧
    next_half_edge (next_half_edge (next_half_edge e)) = e := by
  refine ⟨?_, ?_⟩ <;> (unfold next_half_edge; split_ifs <;> omega)

/-- Helper for C10: for any f64 value `f` and any integer divisor `S ≥ 1`,
the Rust cast-to-usize of `f % S` is strictly below `S`: the fmod of a
finite dividend has magnitude below the divisor, every other case produces
NaN or a zero, and the saturating cast sends those to 0. -/
theorem castUsize_fmodF_lt (f : F) (S : ℕ) (hS : 1 ≤ S) :
    castUsize (fmodF f (.num (S : ℚ))) < S := by
  have hS0 : (0 : ℚ) < (S : ℚ) := by exact_mod_cast hS
  cases f with
  | nan => simpa [fmodF, castUsize] using hS
  | inf s => simpa [fmodF, castUsize] using hS
  | zero s => simpa [fmodF, castUsize] using hS
  | num p =>
    simp only [fmodF]
    by_cases h0 : p - (S : ℚ) * ((qtrunc (p / (S : ℚ)) : ℤ) : ℚ) = 0
    · simpa [h0, castUsize] using hS
    · simp only [h0, if_false, castUsize]
      set r : ℚ := p - (S : ℚ) * ((qtrunc (p / (S : ℚ)) : ℤ) : ℚ) with hrdef
      by_cases hneg : r ≤ 0
      · simpa [hneg] using hS
      · push_neg at hneg
        rw [if_neg (by linarith)]
        have hrS : r < (S : ℚ) := by
          unfold qtrunc at hrdef
          by_cases hq : 0 ≤ p / (S : ℚ)
          · rw [if_pos hq] at hrdef
            have hfl := Int.lt_floor_add_one (p / (S : ℚ))
            have := (div_lt_iff₀ hS0).1 hfl
            rw [hrdef]
            nlinarith
          · rw [if_neg hq] at hrdef
            have hcl := Int.le_ceil (p / (S : ℚ))
            have := (div_le_iff₀ hS0).1 hcl
            rw [hrdef] at hneg ⊢
            nlinarith
        have hfl : ⌊r⌋ < (S : ℤ) := Int.floor_lt.2 (by exact_mod_cast hrS)
        have hfn : ⌊r⌋.toNat < S := by omega
        exact lt_of_le_of_lt (Nat.min_le_left _ _) hfn

/-- C10: `hash_key` is total and in-bounds: for every pair of modelled f64
points `p`, `c` (any coordinates, NaN and infinities included) and every
integer hash size `S ≥ 1`, `hash_key p c S < S`, so every access to the
angular hash table is within bounds (the NaN pseudo-angle case casts to
bucket 0). -/
theorem hash_key_lt (p c : V) (S : ℕ) (hS : 1 ≤ S) :
    hash_key p c (.num (S : ℚ)) < S := by
  unfold hash_key
  exact castUsize_fmodF_lt _ S hS

/-- Witness for C10 at a concrete input: `S = 3` satisfies `1 ≤ S`, and the
bound holds at the point `(1, 2)` hashed around the origin. -/
theorem hash_key_lt_witness :
    1 ≤ 3 ∧ hash_key ⟨.num 1, .num 2⟩ V.ZERO (.num ((3 : ℕ) : ℚ)) < 3 :=
  ⟨by decide, hash_key_lt ⟨.num 1, .num 2⟩ V.ZERO 3 (by decide)⟩

/-- C5 (amended): the conditional swap at the end of seed selection
guarantees that the emitted seed triple is not clockwise as measured by
the own `orient2d_fast` predicate of the program, except in the one case
that the predicate reports clockwise for both argument orders of the
triple (a sign inconsistency that is impossible in exact arithmetic): the
swap fires exactly when the measured orientation of `(p0, p1, p2)` is
negative, and then the emitted order is `(p0, p2, p1)`. The two universal
conjuncts of the original claim (pairwise-distinct vertices, exact-CCW
winding of every output triangle) both fail on the code — see the
counterexample theorem. -/
theorem seedSwap_not_cw (p0 p1 p2 : V) (i0 i1 i2 : ℕ) :
    ltF (orient2d_fast (seedSwap p0 p1 p2 i0 i1 i2).1.1
      (seedSwap p0 p1 p2 i0 i1 i2).1.2.1
      (seedSwap p0 p1 p2 i0 i1 i2).1.2.2) (.zero false) = false ∨
    (ltF (orient2d_fast p0 p1 p2) (.zero false) = true ∧
     ltF (orient2d_fast p0 p2 p1) (.zero false) = true) := by
  unfold seedSwap
  cases hlt : ltF (orient2d_fast p0 p1 p2) (.zero false) with
  | false =>
    left
    simp [hlt]
  | true =>
    cases hlt2 : ltF (orient2d_fast p0 p2 p1) (.zero false) with
    | false =>
      left
      simp [hlt, hlt2]
    | true => exact Or.inr ⟨rfl, rfl⟩

set_option maxRecDepth 20000 in
/-- Counterexample for C5, refuting both universal conjuncts of the claim
on non-degenerate inputs. (1) `cex5` (3 points, all coordinates finite,
not collinear: the exact orientation determinant of its triple is
negative, hence nonzero) yields the single output triangle `(0, 1, 2)`
whose exact orientation determinant is negative — an exactly clockwise
output triangle; since that triangle is precisely the post-swap seed
triple (`orient2d_fast` evaluates to `+0` on it, so no swap fires), the
in-particular clause about the seed triple fails with it. (2) `dup4`
(4 points, all coordinates finite, not all collinear) yields the output
`triangles = [1, 0, 0, 0, 2, 1]`, whose first triangle `(1, 0, 0)` repeats
vertex 0, refuting pairwise distinctness. -/
theorem cw_triangle_cex :
    cex5.length = 3 ∧
    (cex5.all fun v => v.x.isFinite && v.y.isFinite) = true ∧
    orient2d_exact (cex5.getD 0 V.ZERO) (cex5.getD 1 V.ZERO) (cex5.getD 2 V.ZERO) < 0 ∧
    triangulate 1000 cex5 = some ⟨cex5, [0, 1, 2], [none, none, none], [0, 1, 2]⟩ ∧
    dup4.length = 4 ∧
    (dup4.all fun v => v.x.isFinite && v.y.isFinite) = true ∧
    orient2d_exact (dup4.getD 0 V.ZERO) (dup4.getD 1 V.ZERO) (dup4.getD 2 V.ZERO) ≠ 0 ∧
    triangulate 1000 dup4 = some ⟨dup4, [1, 0, 0, 0, 2, 1],
      [none, none, some 5, none, none, some 2], [0, 2, 1, 0]⟩ ∧
    getN [1, 0, 0, 0, 2, 1] 1 = getN [1, 0, 0, 0, 2, 1] 2 :=
  ⟨by decide, by with_unfolding_all rfl, by with_unfolding_all decide,
   by with_unfolding_all rfl, by decide, by with_unfolding_all rfl,
   by with_unfolding_all decide, by with_unfolding_all rfl, by decide⟩

set_option maxRecDepth 60000 in
/-- C2: on the exact 7-point input of the specification scenario the code
actually returns `triangles = [5,6,4, 6,0,4, 4,2,5, 3,1,6, 6,1,0, 0,2,4,
5,3,6, 2,3,5]`, `half_edges = [20,5,8, 14,17,1, 16,23,2, none,12,19,
10,none,3, none,6,4, 22,11,0, none,18,7]` and `hull = [2,3,1,0]` — not the
arrays asserted by the claim (and by the in-repo tests), from which they
differ already in the first entry. -/
theorem seven_point_run :
    triangulate 1000 pts7 = some ⟨pts7,
      [5, 6, 4, 6, 0, 4, 4, 2, 5, 3, 1, 6, 6, 1, 0, 0, 2, 4, 5, 3, 6, 2, 3, 5],
      [some 20, some 5, some 8, some 14, some 17, some 1, some 16, some 23, some 2,
       none, some 12, some 19, some 10, none, some 3, none, some 6, some 4, some 22,
       some 11, some 0, none, some 18, some 7],
      [2, 3, 1, 0]⟩ ∧
    ([5, 6, 4, 6, 0, 4, 4, 2, 5, 3, 1, 6, 6, 1, 0, 0, 2, 4, 5, 3, 6, 2, 3, 5] : List ℕ) ≠
      [0, 4, 6, 2, 0, 1, 4, 0, 6, 0, 1, 6, 6, 1, 0, 5, 2, 3, 1, 3, 2, 5, 3, 2] ∧
    ([2, 3, 1, 0] : List ℕ) ≠ [1, 3, 2, 0] :=
  ⟨by with_unfolding_all rfl, by decide, by decide⟩

set_option maxRecDepth 20000 in
/-- C3: on the exactly collinear input `[(0,0), (1,0), (2,0)]` seed
selection does not fail (the minimal squared circumradius is `+∞`, and
`is_subnormal(+∞)` is false), so the degenerate branch is never taken: the
code returns the garbage triangle `[1, 0, 0]` (the default `i2 = 0` of the
third seed fold), three `none` half-edges, and `hull = [1, 0, 1]` — not the
empty triangles and `hull = [0, 1, 2]` of the claim. -/
theorem collinear_run :
    (seed_triangle pts3).isOk = true ∧
    triangulate 1000 pts3 = some ⟨pts3, [1, 0, 0], [none, none, none], [1, 0, 1]⟩ :=
  ⟨by with_unfolding_all rfl, by with_unfolding_all rfl⟩

/-- C4: `Triangulation::new` computes `(2 * n - 5).max(0)` in `usize`, so
for every input with fewer than 3 points the subtraction underflows (panic
in a debug build; absurd wrapped allocation, hence abort, in release) and
`triangulate` never returns at all, modelled as `none`. -/
theorem new_underflow :
    Triangulation.new ([] : List V) = none ∧
    Triangulation.new [V.ZERO] = none ∧
    Triangulation.new [V.ZERO, ⟨.num 1, .zero false⟩] = none ∧
    triangulate 1000 ([] : List V) = none ∧
    triangulate 1000 [V.ZERO, ⟨.num 1, .zero false⟩] = none := by
  refine ⟨rfl, rfl, rfl, rfl, rfl⟩

set_option maxRecDepth 60000 in
/-- Counterexample for C7: in the triangulation the code computes for the
7-point input, half-edge 0 has the twin 20 > 0, so the claimed emission
rule (emit when the twin is none or greater than the index) would emit an
edge at index 0 — but the code filter `opposite < e` does not: index 0 is
not among the emitted indices. -/
theorem edges_filter_cex :
    getO T7.halfEdges 0 = some 20 ∧ (0 : ℕ) < 20 ∧
    edgeEmitted T7.halfEdges 0 = false ∧ 0 ∉ edgesEmitIdx T7.halfEdges :=
  ⟨by with_unfolding_all rfl, by decide, by with_unfolding_all rfl,
   by with_unfolding_all decide⟩

/-- C7 (amended): the edges iterator emits the half-edge `e` precisely when
`half_edges[e]` is none or LESS than `e` (the half with the larger index is
the canonical representative), and under twin symmetry it yields each
undirected edge exactly once: every hull half-edge is emitted, and of a
twin pair exactly one half is emitted. -/
theorem edges_emit_canonical (h : List (Option ℕ)) (hs : twinSymB h = true) :
    (∀ e, e < h.length → h.getD e none = none → e ∈ edgesEmitIdx h) ∧
    (∀ e f, h.getD e none = some f → ((e ∈ edgesEmitIdx h) ↔ f ∉ edgesEmitIdx h)) ∧
    (∀ e, e ∈ edgesEmitIdx h ↔
      (e < h.length ∧ (h.getD e none = none ∨ ∃ o, h.getD e none = some o ∧ o < e))) := by
  have hmem : ∀ e, e ∈ edgesEmitIdx h ↔ (e < h.length ∧ edgeEmitted h e = true) := by
    intro e
    simp [edgesEmitIdx, List.mem_filter, List.mem_range]
  have hemit : ∀ e, edgeEmitted h e = true ↔
      (h.getD e none = none ∨ ∃ o, h.getD e none = some o ∧ o < e) := by
    intro e
    unfold edgeEmitted
    rcases hg : h.getD e none with _ | o <;> simp
  have hlen : ∀ e f, h.getD e none = some f → e < h.length := by
    intro e f hef
    by_contra hc
    push_neg at hc
    rw [List.getD_eq_default _ _ hc] at hef
    exact Option.noConfusion hef
  refine ⟨?_, ?_, ?_⟩
  · intro e he hnone
    exact (hmem e).2 ⟨he, (hemit e).2 (Or.inl hnone)⟩
  · intro e f hef
    have he : e < h.length := hlen e f hef
    have hsym := (List.all_eq_true.1 hs) e (List.mem_range.2 he)
    rw [hef] at hsym
    simp only [Bool.and_eq_true, decide_eq_true_eq] at hsym
    obtain ⟨hne, hfe⟩ := hsym
    have hf : f < h.length := hlen f e hfe
    rw [hmem e, hmem f, hemit e, hemit f]
    simp only [hef, hfe, Option.some.injEq, reduceCtorEq, false_or]
    constructor
    · rintro ⟨-, o, ho, hlt⟩
      rintro ⟨-, o2, ho2, hlt2⟩
      omega
    · intro hnf
      refine ⟨he, f, rfl, ?_⟩
      by_contra hfe2
      push_neg at hfe2
      exact hnf ⟨hf, e, rfl, by omega⟩
  · intro e
    rw [hmem e, hemit e]

/-- Witness for C7 (amended) on the concrete two-element twin-symmetric
half-edge array `[some 1, some 0]`: exactly one of the pair {0, 1} is
emitted. -/
theorem edges_emit_canonical_witness :
    twinSymB [some 1, some 0] = true ∧
    ((0 ∈ edgesEmitIdx [some 1, some 0]) ↔ 1 ∉ edgesEmitIdx [some 1, some 0]) :=
  ⟨by decide, (edges_emit_canonical [some 1, some 0] (by decide)).2.1 0 1 rfl⟩

end Delaunay
